import Mathlib

/-!
Verification of `BatchSelectionExecutor`
(`src/coprocessor/dag/batch_executor/selection_executor.rs`).

The operator is embedded at the row level: a fetched batch is a `List R` of
rows together with an optional upstream error, and the operator state carries
the fields of the Rust struct that drive its observable behaviour
(`conditions`, `pending_data`, `pending_error`, `has_thrown_error`,
`has_drained`) plus the sequence of results the upstream source will hand out
on successive `next_batch(1024)` calls.  Column decoding has no effect on the
row-level dynamics; the column/decode bookkeeping of `new` and `fill_buffer`
is embedded separately at the end of the definition section.
-/

/-- One result of a `next_batch` call: a batch of rows plus an optional error
(`BatchExecuteResult { data, error }` in the source). -/
structure BatchExecuteResult (R E : Type) where
  data : List R
  error : Option E
deriving DecidableEq

/-- Modelled from the spec: the external evaluator
(`RpnExpressionNodeVec::eval_as_bools`, not under `src/`).  `evalAsBools c
data` is the content the evaluator writes into the head retain map for
condition `c` over batch `data` (the spec: "writes one boolean per row into a
caller-supplied output buffer").  The spec also says the evaluator "may fail,
in which case output buffer contents for this call are not relied upon";
`evalError` reports such a failure.  The call site in `filter_rows`
(source lines 119-129) invokes `eval_as_bools` as a plain statement and has no
channel through which a failure could reach it, so the dynamics below never
consult `evalError`; it exists so that claims about failing evaluations can be
stated. -/
structure Evaluator (C R E : Type) where
  evalAsBools : C → List R → List Bool
  evalError : C → List R → Option E

/-- State of `BatchSelectionExecutor`.  `upstream` models the source executor
`src` as the list of results it will return on successive calls; once the list
is exhausted the source keeps answering with an empty, error-free batch (the
upstream contract: a zero-row batch signals exhaustion). -/
structure SelState (C R E : Type) where
  conditions : List C
  pending_data : List R
  pending_error : Option E
  has_thrown_error : Bool
  has_drained : Bool
  upstream : List (BatchExecuteResult R E)
deriving DecidableEq

variable {C R E : Type}

/-- One upstream pull (`self.src.next_batch(1024)`): the next scripted result
and the remaining script, or an empty drained batch once the script is
exhausted.  The requested size 1024 does not constrain the result; the
upstream's own chunking policy decides the batch size. -/
def upstreamNext : List (BatchExecuteResult R E) →
    BatchExecuteResult R E × List (BatchExecuteResult R E)
  | [] => ({ data := [], error := none }, [])
  | r :: rest => (r, rest)

/-- The head retain map after one `eval_as_bools` call: the buffer is
`vec![false; rows_len]` and the evaluator writes its booleans into it
positionwise, so entries beyond what it writes stay `false` and it cannot
write past the buffer. -/
def writeHead (ev : Evaluator C R E) (c : C) (data : List R) : List Bool :=
  (ev.evalAsBools c data).take data.length ++
    List.replicate (data.length - (ev.evalAsBools c data).length) false

/-- The merge loop `for i in 0..rows_len { base[i] &= head[i] }`: entries of
`base` past `rows` are left untouched. -/
def mergeRetain (rows : ℕ) (base head : List Bool) : List Bool :=
  List.zipWith (· && ·) (base.take rows) (head.take rows) ++ base.drop rows

/-- `BatchSelectionExecutor::filter_rows` (source lines 99-132): for each
condition, in order, evaluate it over the whole batch into the head retain map
and AND-merge that into the base retain map.  Returns the final base map
together with the function's `Result`: the body contains no fallible step
(`eval_as_bools` is invoked as a statement, its outcome is not propagated) and
ends in `Ok(())`, so the error component is always `none`. -/
def filter_rows (ev : Evaluator C R E) (conds : List C) (data : List R)
    (base : List Bool) : List Bool × Option E :=
  (conds.foldl (fun b c => mergeRetain data.length b (writeHead ev c data)) base,
   none)

/-- `LazyBatchColumnVec::append_by_index`: append exactly the rows whose
retain bit is `true`, in order. -/
def append_by_index : List R → List Bool → List R
  | [], _ => []
  | _ :: _, [] => []
  | r :: rs, b :: bs =>
    if b then r :: append_by_index rs bs else append_by_index rs bs

/-- `BatchSelectionExecutor::fill_buffer` (source lines 137-169): pull one
chunk from upstream, filter it against all conditions, append the retained
rows to the pending buffer, merge the cycle's errors into the pending error
first-failure-wins (`pending_error.take().or_else(|| filter_result.err())
.or(result.error)`), and mark the operator drained when a pending error now
exists or the fetched chunk had zero rows.  The per-chunk column decode loop
(source lines 143-151) does not change row contents and is embedded separately
below.  The source asserts `!self.has_drained` on entry; the only caller
(`next_batch`) establishes that precondition. -/
def fill_buffer (ev : Evaluator C R E) (s : SelState C R E) : SelState C R E :=
  let fetched := upstreamNext s.upstream
  let result := fetched.1
  let result_is_drained := result.data.length == 0
  let retain_map := List.replicate result.data.length true
  let fr := filter_rows ev s.conditions result.data retain_map
  let pending_data' := s.pending_data ++ append_by_index result.data fr.1
  let pending_error' := (s.pending_error.or fr.2).or result.error
  { s with
    upstream := fetched.2
    pending_data := pending_data'
    pending_error := pending_error'
    has_drained := pending_error'.isSome || result_is_drained }

/-- The `while !self.has_drained && self.pending_data.rows_len() < expect_rows`
loop of `next_batch`, written with explicit fuel so that it is structurally
recursive.  `fillLoop` below supplies fuel `upstream.length + 1`, which is
always enough: every iteration either consumes one scripted upstream result or
hits the end of the script, and a pull past the end of the script yields an
empty chunk which sets `has_drained` (proved in `fillLoopFuel_fuel_enough`). -/
def fillLoopFuel (ev : Evaluator C R E) (expect : ℕ) :
    ℕ → SelState C R E → SelState C R E
  | 0, s => s
  | fuel + 1, s =>
    if s.has_drained = false ∧ s.pending_data.length < expect then
      fillLoopFuel ev expect fuel (fill_buffer ev s)
    else s

/-- The buffer-refill loop of `next_batch` (source lines 178-180). -/
def fillLoop (ev : Evaluator C R E) (expect : ℕ) (s : SelState C R E) :
    SelState C R E :=
  fillLoopFuel ev expect (s.upstream.length + 1) s

/-- `BatchSelectionExecutor::next_batch` (source lines 174-197).  The entry
assertion `assert!(!self.has_thrown_error)` is modelled by returning `none`
(the call is a contract violation and the process aborts); a normal return is
`some (result, newState)`.  Otherwise: refill the pending buffer while active
and short, take the first `expect_rows` buffered rows, attach the pending
error (taking and clearing it) exactly when fewer than `expect_rows` rows are
returned, and record that an error has been thrown when the result carries
one. -/
def next_batch (ev : Evaluator C R E) (s : SelState C R E) (expect_rows : ℕ) :
    Option (BatchExecuteResult R E × SelState C R E) :=
  if s.has_thrown_error then none
  else
    let s1 := fillLoop ev expect_rows s
    let data := s1.pending_data.take expect_rows
    let error := if data.length < expect_rows then s1.pending_error else none
    some ({ data := data, error := error },
      { s1 with
        pending_data := s1.pending_data.drop expect_rows
        pending_error := if data.length < expect_rows then none
                         else s1.pending_error
        has_thrown_error := error.isSome })

/-- Drive the operator through a sequence of `next_batch` calls, collecting
all returned rows in order; a contract violation (`none`) stops the run. -/
def runCalls (ev : Evaluator C R E) : List ℕ → SelState C R E →
    List R × SelState C R E
  | [], s => ([], s)
  | n :: ns, s =>
    match next_batch ev s n with
    | none => ([], s)
    | some (res, s1) =>
      let t := runCalls ev ns s1
      (res.data ++ t.1, t.2)

/-- The rows of `rows` that pass every condition under the row-wise predicate
semantics `p`. -/
def passed (p : C → R → Bool) (conds : List C) (rows : List R) : List R :=
  rows.filter (fun r => conds.all (fun c => p c r))

/-- All rows an upstream script produces, in order. -/
def upstreamRows (l : List (BatchExecuteResult R E)) : List R :=
  (l.map (fun r => r.data)).flatten

/-!
Column / decode bookkeeping.  `new` (source lines 47-97) computes the referred
column set and allocates the pending buffer's columns as decoded or raw;
`fill_buffer` (source lines 143-151) runs `ensure_column_decoded` on every
referred column of the fetched chunk.  Rows are irrelevant here, so a chunk is
represented by the decode status of each of its columns.
-/

/-- Decode status of one column of a batch (`LazyBatchColumn` is either
decoded or raw). -/
inductive ColKind : Type
  | decoded : ColKind
  | raw : ColKind
deriving DecidableEq

/-- The part of a schema column descriptor (`ColumnInfo`) the operator reads:
its `get_pk_handle` flag. -/
structure ColumnInfo where
  pk_handle : Bool
deriving DecidableEq

/-- Modelled from the spec: `ExprColumnRefVisitor` (not under `src/`) is "the
static analysis that extracts which schema columns a set of expressions
references"; here each predicate expression is given directly by the list of
column offsets it references, and `column_offsets()` returns the referenced
in-range offsets in increasing order (out-of-range offsets make construction
fail in the source and are not modelled).  This is `referred_columns` as
computed in `new`, source lines 53-57. -/
def referredColumns (ncols : ℕ) (condRefs : List (List ℕ)) : List ℕ :=
  (List.range ncols).filter (fun i => decide (∃ refs ∈ condRefs, i ∈ refs))

/-- The pending buffer columns allocated by `new` (source lines 59-77): a
column gets a decoded, typed buffer column when it is referred or is the
primary-key handle, and a raw one otherwise.  The first argument is the index
of the head column (the source enumerates `columns_info`). -/
def newPendingCols (referred : List ℕ) : ℕ → List ColumnInfo → List ColKind
  | _, [] => []
  | i, ci :: rest =>
    (if i ∈ referred ∨ ci.pk_handle = true then ColKind.decoded else ColKind.raw)
      :: newPendingCols referred (i + 1) rest

/-- `ensure_column_decoded` on column `idx` of a fetched chunk: that column
becomes decoded, all others are untouched. -/
def ensureDecoded : List ColKind → ℕ → List ColKind
  | [], _ => []
  | _ :: cs, 0 => ColKind.decoded :: cs
  | c :: cs, n + 1 => c :: ensureDecoded cs n

/-- The decode loop of `fill_buffer` (source lines 143-151): `for idx in
&self.referred_columns { result.data.ensure_column_decoded(*idx, ..) }`. -/
def fillDecode (referred : List ℕ) (chunk : List ColKind) : List ColKind :=
  referred.foldl ensureDecoded chunk

/-!
Concrete instances used by witnesses and counterexamples.
-/

/-- Row-wise predicate semantics for the sample evaluator: condition `c`
holds of row `r` when `c ≤ r`. -/
def exP (c r : ℕ) : Bool := decide (c ≤ r)

/-- A sample failure-free evaluator over rows, conditions and errors drawn
from `ℕ`. -/
def exEv : Evaluator ℕ ℕ ℕ where
  evalAsBools := fun c data => data.map (fun r => exP c r)
  evalError := fun _ _ => none

/-- A fresh operator state: one condition `2` (rows `≥ 2` pass), upstream
script `[1, 2, 3]` in one chunk then exhaustion. -/
def exState : SelState ℕ ℕ ℕ where
  conditions := [2]
  pending_data := []
  pending_error := none
  has_thrown_error := false
  has_drained := false
  upstream := [{ data := [1, 2, 3], error := none }]

/-- A state whose upstream has an error-carrying chunk after a clean one. -/
def exStateErr : SelState ℕ ℕ ℕ where
  conditions := [2]
  pending_data := []
  pending_error := none
  has_thrown_error := false
  has_drained := false
  upstream := [{ data := [5, 1], error := none }, { data := [], error := some 9 }]

/-- An already-drained state with upstream script remaining, to exhibit that a
drained operator never pulls again. -/
def exDrained : SelState ℕ ℕ ℕ where
  conditions := [2]
  pending_data := [7]
  pending_error := some 3
  has_thrown_error := false
  has_drained := true
  upstream := [{ data := [4, 4], error := none }]

/-- An evaluator whose condition `0` fails (`evalError = some 7`) while still
writing an all-true head map, and whose condition `1` keeps rows `≥ 2`:
used to exhibit the behaviour on a failing predicate evaluation. -/
def ev7 : Evaluator ℕ ℕ ℕ where
  evalAsBools := fun c data =>
    data.map (fun r => decide (c = 0) || decide (2 ≤ r))
  evalError := fun c _ => if c = 0 then some 7 else none

/-- State for the failing-predicate scenario: conditions `[0, 1]` where
condition `0` fails on the only chunk `[1, 2]`. -/
def s7 : SelState ℕ ℕ ℕ where
  conditions := [0, 1]
  pending_data := []
  pending_error := none
  has_thrown_error := false
  has_drained := false
  upstream := [{ data := [1, 2], error := none }]

/-- Schema for the column counterexample: column 0 is the primary-key handle,
column 1 is an ordinary column. -/
def cols6 : List ColumnInfo := [{ pk_handle := true }, { pk_handle := false }]

/-- Predicate column references for the column counterexample: a single
predicate referring to column 1 only. -/
def condRefs6 : List (List ℕ) := [[1]]

/-- A state that already carries a pending error, to exhibit
first-failure-wins merging when another upstream error arrives. -/
def exPE : SelState ℕ ℕ ℕ where
  conditions := [2]
  pending_data := [5]
  pending_error := some 3
  has_thrown_error := false
  has_drained := false
  upstream := [{ data := [8], error := some 4 }]

/-- The state `next_batch exEv exStateErr 4` leaves behind: the buffered rows
were handed out together with the pending error, which was cleared, and the
thrown-error flag is set. -/
def sAfterErr : SelState ℕ ℕ ℕ where
  conditions := [2]
  pending_data := []
  pending_error := none
  has_thrown_error := true
  has_drained := true
  upstream := []

/-!
Helper lemmas about the filtering core.
-/

theorem fill_conditions (ev : Evaluator C R E) (s : SelState C R E) :
    (fill_buffer ev s).conditions = s.conditions := rfl

theorem fill_upstream (ev : Evaluator C R E) (s : SelState C R E) :
    (fill_buffer ev s).upstream = s.upstream.tail := by
  rcases h : s.upstream with _ | ⟨r, rest⟩ <;> simp [fill_buffer, h, upstreamNext]

theorem fill_drained_of_nil (ev : Evaluator C R E) (s : SelState C R E)
    (h : s.upstream = []) : (fill_buffer ev s).has_drained = true := by
  simp [fill_buffer, h, upstreamNext]

theorem writeHead_eq_map (ev : Evaluator C R E) (c : C) (data : List R)
    (f : R → Bool) (h : ev.evalAsBools c data = data.map f) :
    writeHead ev c data = data.map f := by
  simp [writeHead, h, List.take_of_length_le]

theorem mergeRetain_eq_zipWith (n : ℕ) (b h : List Bool)
    (hb : b.length = n) (hh : h.length = n) :
    mergeRetain n b h = List.zipWith (· && ·) b h := by
  subst hb
  rw [mergeRetain, List.take_length, List.drop_length, List.append_nil,
    List.take_of_length_le hh.le]

theorem zipWith_and_map (data : List R) (g h : R → Bool) :
    List.zipWith (· && ·) (data.map g) (data.map h)
      = data.map (fun r => g r && h r) := by
  induction data with
  | nil => rfl
  | cons a as ih => simp [ih]

theorem replicate_true_eq_map (data : List R) :
    List.replicate data.length true = data.map (fun _ => true) := by
  induction data with
  | nil => rfl
  | cons a as ih => rw [List.length_cons, List.replicate_succ, List.map_cons, ih]

theorem foldl_merge_eq (ev : Evaluator C R E) (p : C → R → Bool)
    (conds : List C) (data : List R)
    (hrow : ∀ c ∈ conds, ev.evalAsBools c data = data.map (p c))
    (g : R → Bool) :
    conds.foldl (fun b c => mergeRetain data.length b (writeHead ev c data))
        (data.map g)
      = data.map (fun r => g r && conds.all (fun c => p c r)) := by
  induction conds generalizing g with
  | nil => simp
  | cons c cs ih =>
    have hc : writeHead ev c data = data.map (p c) :=
      writeHead_eq_map ev c data (p c) (hrow c (List.mem_cons_self c cs))
    have hstep : mergeRetain data.length (data.map g) (writeHead ev c data)
        = data.map (fun r => g r && p c r) := by
      rw [hc, mergeRetain_eq_zipWith data.length _ _ (by simp) (by simp),
        zipWith_and_map]
    rw [List.foldl_cons, hstep,
      ih (fun d hd => hrow d (List.mem_cons_of_mem c hd))]
    apply List.map_congr_left
    intro r _
    simp [Bool.and_assoc]

theorem filter_rows_fst (ev : Evaluator C R E) (p : C → R → Bool)
    (conds : List C) (data : List R)
    (hrow : ∀ c ∈ conds, ev.evalAsBools c data = data.map (p c)) :
    (filter_rows ev conds data (List.replicate data.length true)).1
      = data.map (fun r => conds.all (fun c => p c r)) := by
  rw [filter_rows, replicate_true_eq_map, foldl_merge_eq ev p conds data hrow]
  simp

theorem append_by_index_map (data : List R) (f : R → Bool) :
    append_by_index data (data.map f) = data.filter f := by
  induction data with
  | nil => rfl
  | cons a as ih =>
    by_cases h : f a <;> simp [append_by_index, List.filter_cons, h, ih]

theorem fill_pending_data (ev : Evaluator C R E) (p : C → R → Bool)
    (s : SelState C R E) (r : BatchExecuteResult R E)
    (rest : List (BatchExecuteResult R E)) (hup : s.upstream = r :: rest)
    (hrow : ∀ c ∈ s.conditions, ev.evalAsBools c r.data = r.data.map (p c)) :
    (fill_buffer ev s).pending_data
      = s.pending_data ++ passed p s.conditions r.data := by
  simp only [fill_buffer, hup, upstreamNext]
  rw [filter_rows_fst ev p s.conditions r.data hrow, append_by_index_map]
  rfl

theorem fill_pending_data_nil (ev : Evaluator C R E) (s : SelState C R E)
    (hup : s.upstream = []) :
    (fill_buffer ev s).pending_data = s.pending_data := by
  simp [fill_buffer, hup, upstreamNext, filter_rows, append_by_index]

theorem fill_pending_error (ev : Evaluator C R E) (s : SelState C R E) :
    (fill_buffer ev s).pending_error
      = s.pending_error.or (upstreamNext s.upstream).1.error := by
  simp [fill_buffer, filter_rows]

/-!
Helper lemmas about the refill loop.
-/

theorem fillLoopFuel_drained (ev : Evaluator C R E) (n fuel : ℕ)
    (s : SelState C R E) (h : s.has_drained = true) :
    fillLoopFuel ev n fuel s = s := by
  cases fuel with
  | zero => rfl
  | succ fuel => simp [fillLoopFuel, h]

theorem fillLoopFuel_conditions (ev : Evaluator C R E) (n : ℕ) :
    ∀ (fuel : ℕ) (s : SelState C R E),
      (fillLoopFuel ev n fuel s).conditions = s.conditions := by
  intro fuel
  induction fuel with
  | zero => intro s; rfl
  | succ fuel ih =>
    intro s
    rw [fillLoopFuel]
    split
    · rw [ih, fill_conditions]
    · rfl

theorem fillLoopFuel_fuel_enough (ev : Evaluator C R E) (n : ℕ) :
    ∀ (fuel : ℕ) (s : SelState C R E), s.upstream.length < fuel →
      ¬((fillLoopFuel ev n fuel s).has_drained = false ∧
        (fillLoopFuel ev n fuel s).pending_data.length < n) := by
  intro fuel
  induction fuel with
  | zero => intro s hs; omega
  | succ fuel ih =>
    intro s hs
    rw [fillLoopFuel]
    split
    · rcases hup : s.upstream with _ | ⟨r, rest⟩
      · rw [fillLoopFuel_drained ev n fuel _ (fill_drained_of_nil ev s hup)]
        simp [fill_drained_of_nil ev s hup]
      · apply ih
        rw [fill_upstream, hup]
        simp only [List.tail_cons]
        rw [hup] at hs
        simp only [List.length_cons] at hs
        omega
    · intro hcon
      exact (by assumption : ¬_) hcon

/-- The loop exit condition: after the refill loop, the operator is drained or
the pending buffer holds at least the requested number of rows (so the fuel
given to `fillLoopFuel` by `fillLoop` never runs out before the `while`
condition turns false). -/
theorem fillLoop_exit (ev : Evaluator C R E) (n : ℕ) (s : SelState C R E) :
    (fillLoop ev n s).has_drained = true ∨
      n ≤ (fillLoop ev n s).pending_data.length := by
  have h := fillLoopFuel_fuel_enough ev n (s.upstream.length + 1) s
    (Nat.lt_succ_self _)
  rw [fillLoop]
  rcases Bool.eq_false_or_eq_true
      (fillLoopFuel ev n (s.upstream.length + 1) s).has_drained with hd | hd
  · left; exact hd
  · right
    by_contra hlt
    exact h ⟨hd, by omega⟩

theorem fillLoop_drained (ev : Evaluator C R E) (n : ℕ) (s : SelState C R E)
    (h : s.has_drained = true) : fillLoop ev n s = s :=
  fillLoopFuel_drained ev n _ s h

theorem fillLoop_conditions (ev : Evaluator C R E) (n : ℕ)
    (s : SelState C R E) : (fillLoop ev n s).conditions = s.conditions :=
  fillLoopFuel_conditions ev n _ s

theorem fillLoop_zero (ev : Evaluator C R E) (s : SelState C R E) :
    fillLoop ev 0 s = s := by
  rw [fillLoop, fillLoopFuel]
  simp

/-!
Conservation: one fill cycle moves the passing rows of the consumed upstream
chunk into the pending buffer and nothing else, so the multiset-free list
equation `pending ++ passed(remaining upstream) = const` holds along the whole
execution.
-/

theorem fill_conserve (ev : Evaluator C R E) (p : C → R → Bool)
    (s : SelState C R E)
    (hrow : ∀ c ∈ s.conditions, ∀ data : List R,
      ev.evalAsBools c data = data.map (p c)) :
    (fill_buffer ev s).pending_data
        ++ passed p s.conditions (upstreamRows (fill_buffer ev s).upstream)
      = s.pending_data ++ passed p s.conditions (upstreamRows s.upstream) := by
  rcases hup : s.upstream with _ | ⟨r, rest⟩
  · rw [fill_pending_data_nil ev s hup, fill_upstream, hup]
    rfl
  · rw [fill_pending_data ev p s r rest hup
      (fun c hc => hrow c hc r.data), fill_upstream, hup]
    simp only [List.tail_cons, upstreamRows, List.map_cons, List.flatten_cons,
      passed, List.filter_append, List.append_assoc]

theorem fillLoopFuel_conserve (ev : Evaluator C R E) (p : C → R → Bool)
    (n : ℕ) : ∀ (fuel : ℕ) (s : SelState C R E),
    (∀ c ∈ s.conditions, ∀ data : List R,
      ev.evalAsBools c data = data.map (p c)) →
    (fillLoopFuel ev n fuel s).pending_data
        ++ passed p s.conditions
            (upstreamRows (fillLoopFuel ev n fuel s).upstream)
      = s.pending_data ++ passed p s.conditions (upstreamRows s.upstream) := by
  intro fuel
  induction fuel with
  | zero => intro s _; rfl
  | succ fuel ih =>
    intro s hrow
    rw [fillLoopFuel]
    split
    · have hrow' : ∀ c ∈ (fill_buffer ev s).conditions, ∀ data : List R,
          ev.evalAsBools c data = data.map (p c) := by
        rw [fill_conditions]; exact hrow
      have h1 := ih (fill_buffer ev s) hrow'
      rw [fill_conditions] at h1
      rw [h1, fill_conserve ev p s hrow]
    · rfl

theorem fillLoop_conserve (ev : Evaluator C R E) (p : C → R → Bool)
    (n : ℕ) (s : SelState C R E)
    (hrow : ∀ c ∈ s.conditions, ∀ data : List R,
      ev.evalAsBools c data = data.map (p c)) :
    (fillLoop ev n s).pending_data
        ++ passed p s.conditions (upstreamRows (fillLoop ev n s).upstream)
      = s.pending_data ++ passed p s.conditions (upstreamRows s.upstream) :=
  fillLoopFuel_conserve ev p n _ s hrow

/-!
Characterization of one `next_batch` call.
-/

theorem next_batch_thrown (ev : Evaluator C R E) (n : ℕ) (s : SelState C R E)
    (h : s.has_thrown_error = true) : next_batch ev s n = none := by
  rw [next_batch, if_pos h]

theorem next_batch_eq (ev : Evaluator C R E) (n : ℕ) (s : SelState C R E)
    (ht : s.has_thrown_error = false) :
    next_batch ev s n = some
      ({ data := (fillLoop ev n s).pending_data.take n,
         error := if ((fillLoop ev n s).pending_data.take n).length < n
                  then (fillLoop ev n s).pending_error else none },
       { fillLoop ev n s with
         pending_data := (fillLoop ev n s).pending_data.drop n
         pending_error := if ((fillLoop ev n s).pending_data.take n).length < n
                          then none else (fillLoop ev n s).pending_error
         has_thrown_error :=
           (if ((fillLoop ev n s).pending_data.take n).length < n
            then (fillLoop ev n s).pending_error else none).isSome }) := by
  rw [next_batch, if_neg (by simp [ht])]

theorem next_batch_inv (ev : Evaluator C R E) (n : ℕ) (s : SelState C R E)
    (res : BatchExecuteResult R E) (s' : SelState C R E)
    (h : next_batch ev s n = some (res, s')) :
    s.has_thrown_error = false
    ∧ res.data = (fillLoop ev n s).pending_data.take n
    ∧ res.error = (if res.data.length < n then (fillLoop ev n s).pending_error
                   else none)
    ∧ s'.pending_data = (fillLoop ev n s).pending_data.drop n
    ∧ s'.pending_error = (if res.data.length < n then none
                          else (fillLoop ev n s).pending_error)
    ∧ s'.has_thrown_error = res.error.isSome
    ∧ s'.has_drained = (fillLoop ev n s).has_drained
    ∧ s'.upstream = (fillLoop ev n s).upstream
    ∧ s'.conditions = s.conditions := by
  have ht : s.has_thrown_error = false := by
    cases hb : s.has_thrown_error
    · rfl
    · rw [next_batch_thrown ev n s hb] at h
      exact absurd h (by simp)
  rw [next_batch_eq ev n s ht] at h
  obtain ⟨h1, h2⟩ := Prod.ext_iff.mp (Option.some.inj h)
  dsimp only at h1 h2
  rw [← h1, ← h2]
  exact ⟨ht, rfl, rfl, rfl, rfl, rfl, rfl, rfl, fillLoop_conditions ev n s⟩

theorem next_batch_conserve (ev : Evaluator C R E) (p : C → R → Bool) (n : ℕ)
    (s : SelState C R E) (res : BatchExecuteResult R E) (s' : SelState C R E)
    (hrow : ∀ c ∈ s.conditions, ∀ data : List R,
      ev.evalAsBools c data = data.map (p c))
    (h : next_batch ev s n = some (res, s')) :
    res.data ++ s'.pending_data
        ++ passed p s.conditions (upstreamRows s'.upstream)
      = s.pending_data ++ passed p s.conditions (upstreamRows s.upstream) := by
  obtain ⟨-, hdata, -, hpend, -, -, -, hup, -⟩ := next_batch_inv ev n s res s' h
  rw [hdata, hpend, hup, List.take_append_drop]
  exact fillLoop_conserve ev p n s hrow

theorem runCalls_conserve (ev : Evaluator C R E) (p : C → R → Bool) :
    ∀ (ns : List ℕ) (s : SelState C R E),
    (∀ c ∈ s.conditions, ∀ data : List R,
      ev.evalAsBools c data = data.map (p c)) →
    (runCalls ev ns s).1 ++ (runCalls ev ns s).2.pending_data
        ++ passed p s.conditions
            (upstreamRows (runCalls ev ns s).2.upstream)
      = s.pending_data ++ passed p s.conditions (upstreamRows s.upstream) := by
  intro ns
  induction ns with
  | nil => intro s _; simp [runCalls]
  | cons n ns ih =>
    intro s hrow
    cases hnb : next_batch ev s n with
    | none => simp [runCalls, hnb]
    | some out =>
      obtain ⟨res, s1⟩ := out
      have hcond : s1.conditions = s.conditions :=
        (next_batch_inv ev n s res s1 hnb).2.2.2.2.2.2.2.2
      have hrow1 : ∀ c ∈ s1.conditions, ∀ data : List R,
          ev.evalAsBools c data = data.map (p c) := by
        rw [hcond]; exact hrow
      have hih := ih s1 hrow1
      rw [hcond] at hih
      have hone := next_batch_conserve ev p n s res s1 hrow hnb
      simp only [runCalls, hnb, List.append_assoc]
      simp only [List.append_assoc] at hih hone
      rw [hih, hone]

theorem runCalls_conditions (ev : Evaluator C R E) :
    ∀ (ns : List ℕ) (s : SelState C R E),
      (runCalls ev ns s).2.conditions = s.conditions := by
  intro ns
  induction ns with
  | nil => intro s; rfl
  | cons n ns ih =>
    intro s
    cases hnb : next_batch ev s n with
    | none => simp [runCalls, hnb]
    | some out =>
      obtain ⟨res, s1⟩ := out
      have hcond : s1.conditions = s.conditions :=
        (next_batch_inv ev n s res s1 hnb).2.2.2.2.2.2.2.2
      simp only [runCalls, hnb]
      rw [ih s1, hcond]

theorem next_batch_drained_inv (ev : Evaluator C R E) (n : ℕ)
    (s : SelState C R E) (res : BatchExecuteResult R E) (s' : SelState C R E)
    (hd : s.has_drained = true) (h : next_batch ev s n = some (res, s')) :
    s'.upstream = s.upstream ∧ s'.has_drained = true := by
  obtain ⟨-, -, -, -, -, -, hdr, hup, -⟩ := next_batch_inv ev n s res s' h
  rw [fillLoop_drained ev n s hd] at hdr hup
  exact ⟨hup, hdr.trans hd⟩

theorem runCalls_drained (ev : Evaluator C R E) :
    ∀ (ns : List ℕ) (s : SelState C R E), s.has_drained = true →
      (runCalls ev ns s).2.upstream = s.upstream ∧
        (runCalls ev ns s).2.has_drained = true := by
  intro ns
  induction ns with
  | nil => intro s hd; exact ⟨rfl, hd⟩
  | cons n ns ih =>
    intro s hd
    cases hnb : next_batch ev s n with
    | none =>
      simp only [runCalls, hnb]
      exact ⟨trivial, hd⟩
    | some out =>
      obtain ⟨res, s1⟩ := out
      obtain ⟨hup1, hd1⟩ := next_batch_drained_inv ev n s res s1 hd hnb
      obtain ⟨hupr, hdr⟩ := ih s1 hd1
      simp only [runCalls, hnb]
      exact ⟨hupr.trans hup1, hdr⟩

/-!
Helper lemmas about the column / decode model.
-/

theorem ensureDecoded_get (i j : ℕ) :
    ∀ chunk : List ColKind,
      (ensureDecoded chunk i)[j]?
        = if i = j then chunk[j]?.map (fun _ => ColKind.decoded)
          else chunk[j]? := by
  induction i generalizing j with
  | zero =>
    intro chunk
    cases chunk with
    | nil => simp [ensureDecoded]
    | cons c cs =>
      cases j with
      | zero => simp [ensureDecoded]
      | succ j => simp [ensureDecoded]
  | succ i ih =>
    intro chunk
    cases chunk with
    | nil => simp [ensureDecoded]
    | cons c cs =>
      cases j with
      | zero => simp [ensureDecoded]
      | succ j =>
        simp only [ensureDecoded, List.getElem?_cons_succ, ih j cs,
          Nat.succ_inj]

theorem fillDecode_get (j : ℕ) :
    ∀ (referred : List ℕ) (chunk : List ColKind),
      (fillDecode referred chunk)[j]?
        = if j ∈ referred then chunk[j]?.map (fun _ => ColKind.decoded)
          else chunk[j]? := by
  intro referred
  induction referred with
  | nil => intro chunk; simp [fillDecode]
  | cons x xs ih =>
    intro chunk
    have hstep : fillDecode (x :: xs) chunk
        = fillDecode xs (ensureDecoded chunk x) := rfl
    rw [hstep, ih (ensureDecoded chunk x), ensureDecoded_get x j chunk]
    by_cases hx : x = j
    · subst hx
      by_cases hj : x ∈ xs <;>
        simp [hj, List.mem_cons, Option.map_map, Function.comp_def]
    · by_cases hj : j ∈ xs <;>
        simp [hj, hx, List.mem_cons, Ne.symm hx, Option.map_map,
          Function.comp_def]

theorem newPendingCols_get (referred : List ℕ) (j : ℕ) :
    ∀ (i : ℕ) (cols : List ColumnInfo),
      (newPendingCols referred i cols)[j]?
        = cols[j]?.map (fun ci =>
            if (i + j) ∈ referred ∨ ci.pk_handle = true then ColKind.decoded
            else ColKind.raw) := by
  induction j with
  | zero =>
    intro i cols
    cases cols with
    | nil => simp [newPendingCols]
    | cons c cs => simp [newPendingCols]
  | succ j ih =>
    intro i cols
    cases cols with
    | nil => simp [newPendingCols]
    | cons c cs =>
      simp only [newPendingCols, List.getElem?_cons_succ, ih (i + 1) cs]
      have : i + 1 + j = i + (j + 1) := by omega
      rw [this]

theorem referredColumns_mem (ncols : ℕ) (condRefs : List (List ℕ)) (i : ℕ) :
    i ∈ referredColumns ncols condRefs
      ↔ i < ncols ∧ ∃ refs ∈ condRefs, i ∈ refs := by
  simp [referredColumns, List.mem_filter, List.mem_range]

/-!
The claims.
-/

/-- Claim C1: for every fetched batch and every predicate list, when no
predicate evaluation fails, a row of the batch is appended to the pending
buffer if and only if every predicate in the list evaluates to boolean true
for that row (the pending buffer grows by exactly the filter of the chunk, in
order); with an empty predicate list every row survives. -/
theorem claim_c1 (ev : Evaluator C R E) (p : C → R → Bool)
    (s : SelState C R E) (r : BatchExecuteResult R E)
    (rest : List (BatchExecuteResult R E)) (hup : s.upstream = r :: rest)
    (_hok : ∀ c ∈ s.conditions, ev.evalError c r.data = none)
    (hrow : ∀ c ∈ s.conditions, ev.evalAsBools c r.data = r.data.map (p c)) :
    (fill_buffer ev s).pending_data
        = s.pending_data
          ++ r.data.filter (fun row => s.conditions.all (fun c => p c row))
    ∧ (s.conditions = [] →
        (fill_buffer ev s).pending_data = s.pending_data ++ r.data) := by
  have h1 := fill_pending_data ev p s r rest hup hrow
  rw [passed] at h1
  refine ⟨h1, fun hc => ?_⟩
  rw [h1, hc]
  simp

/-- Witness for C1 at a concrete input: condition list `[2]` over chunk
`[1, 2, 3]` appends exactly `[2, 3]`. -/
theorem claim_c1_witness :
    ((fill_buffer exEv exState).pending_data
        = exState.pending_data
          ++ List.filter (fun row => exState.conditions.all (fun c => exP c row))
              [1, 2, 3]
      ∧ (exState.conditions = [] →
          (fill_buffer exEv exState).pending_data
            = exState.pending_data ++ [1, 2, 3]))
    ∧ (fill_buffer exEv exState).pending_data = [2, 3] :=
  ⟨claim_c1 exEv exP exState { data := [1, 2, 3], error := none } [] rfl
      (by decide) (by decide),
   by decide⟩

/-- Claim C2: across every sequence of `next_batch` calls, the returned rows,
followed by the rows still pending and the passing rows of the not yet
consumed upstream script, are exactly the passing rows of the whole upstream
script in upstream order; in particular the concatenation of all returned
rows is an initial segment of the filtered upstream row sequence (no
reordering across predicates, fill cycles, or calls). -/
theorem claim_c2 (ev : Evaluator C R E) (p : C → R → Bool) (ns : List ℕ)
    (s0 : SelState C R E)
    (hrow : ∀ c ∈ s0.conditions, ∀ data : List R,
      ev.evalAsBools c data = data.map (p c))
    (hpend : s0.pending_data = []) :
    (runCalls ev ns s0).1 ++ (runCalls ev ns s0).2.pending_data
        ++ passed p s0.conditions
            (upstreamRows (runCalls ev ns s0).2.upstream)
      = passed p s0.conditions (upstreamRows s0.upstream)
    ∧ ∃ t, (runCalls ev ns s0).1 ++ t
        = passed p s0.conditions (upstreamRows s0.upstream) := by
  have h := runCalls_conserve ev p ns s0 hrow
  rw [hpend, List.nil_append] at h
  refine ⟨h, ⟨(runCalls ev ns s0).2.pending_data
    ++ passed p s0.conditions
        (upstreamRows (runCalls ev ns s0).2.upstream), ?_⟩⟩
  rw [← h]
  simp [List.append_assoc]

/-- Witness for C2 at a concrete input: two `next_batch(2)` calls on the
`[1, 2, 3]` script with condition `[2]` return `[2, 3]` in order. -/
theorem claim_c2_witness :
    ((runCalls exEv [2, 2] exState).1
          ++ (runCalls exEv [2, 2] exState).2.pending_data
          ++ passed exP exState.conditions
              (upstreamRows (runCalls exEv [2, 2] exState).2.upstream)
        = passed exP exState.conditions (upstreamRows exState.upstream)
      ∧ ∃ t, (runCalls exEv [2, 2] exState).1 ++ t
          = passed exP exState.conditions (upstreamRows exState.upstream))
    ∧ (runCalls exEv [2, 2] exState).1 = [2, 3] :=
  ⟨claim_c2 exEv exP [2, 2] exState (fun c _ data => rfl) rfl, by decide⟩

/-- Claim C3: `next_batch(N)` returns at most `N` rows, in every state. -/
theorem claim_c3 (ev : Evaluator C R E) (s : SelState C R E) (n : ℕ)
    (res : BatchExecuteResult R E) (s' : SelState C R E)
    (h : next_batch ev s n = some (res, s')) : res.data.length ≤ n := by
  obtain ⟨-, hdata, -⟩ := next_batch_inv ev n s res s' h
  rw [hdata]
  simp [List.length_take]

/-- Witness for C3 at a concrete input. -/
theorem claim_c3_witness :
    ({ data := [2, 3], error := none } : BatchExecuteResult ℕ ℕ).data.length
      ≤ 2 :=
  claim_c3 exEv exState 2 { data := [2, 3], error := none }
    { conditions := [2], pending_data := [], pending_error := none,
      has_thrown_error := false, has_drained := false, upstream := [] }
    (by decide)

/-- Claim C4: `next_batch(expectedRows)` attaches an error only when the
returned row count is strictly less than `expectedRows`; in that case the
result's error is the pending error after the refill loop and the pending
error is cleared; when the returned count equals `expectedRows` the result
carries no error even if a pending error exists (it is kept for later). -/
theorem claim_c4 (ev : Evaluator C R E) (s : SelState C R E) (n : ℕ)
    (res : BatchExecuteResult R E) (s' : SelState C R E)
    (h : next_batch ev s n = some (res, s')) :
    (res.error.isSome = true → res.data.length < n)
    ∧ (res.data.length < n →
        res.error = (fillLoop ev n s).pending_error
        ∧ s'.pending_error = none)
    ∧ (res.data.length = n →
        res.error = none
        ∧ s'.pending_error = (fillLoop ev n s).pending_error) := by
  obtain ⟨-, -, herr, -, hpe, -⟩ := next_batch_inv ev n s res s' h
  refine ⟨fun hs => ?_, fun hlt => ?_, fun heq => ?_⟩
  · by_contra hge
    rw [herr, if_neg hge] at hs
    exact absurd hs (by simp)
  · rw [herr, if_pos hlt, hpe, if_pos hlt]
    exact ⟨rfl, rfl⟩
  · have hge : ¬res.data.length < n := by omega
    rw [herr, if_neg hge, hpe, if_neg hge]
    exact ⟨rfl, rfl⟩

/-- Witness for C4 at a concrete input: `next_batch(4)` on a script whose
second chunk carries error `9` returns one row with the error attached and a
cleared pending error. -/
theorem claim_c4_witness :
    ((({ data := [5], error := some 9 } : BatchExecuteResult ℕ ℕ).error.isSome
          = true →
        ({ data := [5], error := some 9 } :
            BatchExecuteResult ℕ ℕ).data.length < 4)
      ∧ (({ data := [5], error := some 9 } :
            BatchExecuteResult ℕ ℕ).data.length < 4 →
          ({ data := [5], error := some 9 } :
              BatchExecuteResult ℕ ℕ).error
            = (fillLoop exEv 4 exStateErr).pending_error
          ∧ sAfterErr.pending_error = none)
      ∧ (({ data := [5], error := some 9 } :
            BatchExecuteResult ℕ ℕ).data.length = 4 →
          ({ data := [5], error := some 9 } :
              BatchExecuteResult ℕ ℕ).error = none
          ∧ sAfterErr.pending_error
            = (fillLoop exEv 4 exStateErr).pending_error))
    ∧ (fillLoop exEv 4 exStateErr).pending_error = some 9 :=
  ⟨claim_c4 exEv exStateErr 4 { data := [5], error := some 9 } sAfterErr
      (by decide),
   by decide⟩

/-- Claim C5: once a `next_batch` call has returned a result carrying an
error, the operator is terminal: the thrown-error flag is set, and every
subsequent `next_batch` call trips the entry assertion (modelled as `none`),
a fatal contract violation rather than a normal error return. -/
theorem claim_c5 (ev : Evaluator C R E) (s : SelState C R E) (n : ℕ)
    (res : BatchExecuteResult R E) (s' : SelState C R E)
    (h : next_batch ev s n = some (res, s'))
    (he : res.error.isSome = true) :
    s'.has_thrown_error = true ∧ ∀ m, next_batch ev s' m = none := by
  obtain ⟨-, -, -, -, -, hth, -⟩ := next_batch_inv ev n s res s' h
  have ht : s'.has_thrown_error = true := by rw [hth]; exact he
  exact ⟨ht, fun m => next_batch_thrown ev m s' ht⟩

/-- Witness for C5 at a concrete input: after the error-carrying return of
`next_batch(4)` on `exStateErr`, every further call is refused. -/
theorem claim_c5_witness :
    sAfterErr.has_thrown_error = true
    ∧ ∀ m, next_batch exEv sAfterErr m = none :=
  claim_c5 exEv exStateErr 4 { data := [5], error := some 9 } sAfterErr
    (by decide) (by decide)

/-- Counterexample to claim C6: with schema `[pk-handle, plain]` and one
predicate referring only to column 1, the column reference set computed at
construction is `[1]` — it does not contain the primary-key-handle column 0 —
and a fill cycle's decode loop leaves column 0 of the fetched chunk raw. -/
theorem claim_c6_counterexample :
    (cols6.get ⟨0, by decide⟩).pk_handle = true
    ∧ referredColumns cols6.length condRefs6 = [1]
    ∧ (0 ∈ referredColumns cols6.length condRefs6 → False)
    ∧ fillDecode (referredColumns cols6.length condRefs6)
        [ColKind.raw, ColKind.raw] = [ColKind.raw, ColKind.decoded] := by
  decide

/-- Claim C6 as amended: the column reference set computed at construction
contains exactly the in-range predicate-referenced column indices (the
primary-key-handle column is not added); during a fill cycle exactly the
columns in that set are decoded in the fetched chunk; the primary-key-handle
flag only makes the corresponding pending-buffer column allocated decoded
(rather than raw) at construction. -/
theorem claim_c6_amended (ncols : ℕ) (condRefs : List (List ℕ))
    (cols : List ColumnInfo) (chunk : List ColKind) (i : ℕ) :
    (i ∈ referredColumns ncols condRefs
      ↔ i < ncols ∧ ∃ refs ∈ condRefs, i ∈ refs)
    ∧ ((fillDecode (referredColumns ncols condRefs) chunk)[i]?
        = if i ∈ referredColumns ncols condRefs
          then chunk[i]?.map (fun _ => ColKind.decoded) else chunk[i]?)
    ∧ ((newPendingCols (referredColumns ncols condRefs) 0 cols)[i]?
        = cols[i]?.map (fun ci =>
            if i ∈ referredColumns ncols condRefs ∨ ci.pk_handle = true
            then ColKind.decoded else ColKind.raw)) := by
  refine ⟨referredColumns_mem ncols condRefs i,
    fillDecode_get i (referredColumns ncols condRefs) chunk, ?_⟩
  have h := newPendingCols_get (referredColumns ncols condRefs) i 0 cols
  simpa using h

/-- Counterexample to claim C7: with conditions `[0, 1]` over chunk `[1, 2]`,
evaluating predicate 0 fails (`evalError = some 7`), yet filtering is not
aborted — predicate 1 is still applied, so only `[2]` (not the whole chunk)
is appended — and the failure is not recorded: the pending error stays
`none` after the fill cycle. -/
theorem claim_c7_counterexample :
    ev7.evalError 0 [1, 2] = some 7
    ∧ s7.conditions = [0, 1]
    ∧ s7.upstream = [{ data := [1, 2], error := none }]
    ∧ s7.pending_error = none
    ∧ (fill_buffer ev7 s7).pending_error = none
    ∧ (fill_buffer ev7 s7).pending_data = [2] := by
  decide

/-- Claim C7 as amended: a predicate evaluation failure is not propagated:
`filter_rows` applies every predicate's written bitmap regardless of
failures and always returns `Ok`, so the chunk's contribution to the pending
error is only the upstream result's error, and the appended rows are those
passing the full conjunction of written bitmaps. -/
theorem claim_c7_amended (ev : Evaluator C R E) (p : C → R → Bool)
    (s : SelState C R E) (r : BatchExecuteResult R E)
    (rest : List (BatchExecuteResult R E)) (hup : s.upstream = r :: rest)
    (hrow : ∀ c ∈ s.conditions, ev.evalAsBools c r.data = r.data.map (p c)) :
    (filter_rows ev s.conditions r.data
        (List.replicate r.data.length true)).2 = none
    ∧ (fill_buffer ev s).pending_error = s.pending_error.or r.error
    ∧ (fill_buffer ev s).pending_data
        = s.pending_data
          ++ r.data.filter (fun row => s.conditions.all (fun c => p c row)) := by
  refine ⟨rfl, ?_, ?_⟩
  · rw [fill_pending_error, hup]
    rfl
  · have h := fill_pending_data ev p s r rest hup hrow
    rw [passed] at h
    exact h

/-- Witness for the amended C7 at a concrete input: the failing evaluator
`ev7` on `s7` (predicate 0 fails) still yields `Ok` from `filter_rows`, no
pending error, and the fully filtered rows `[2]`. -/
theorem claim_c7_amended_witness :
    ((filter_rows ev7 s7.conditions ([1, 2] : List ℕ)
          (List.replicate ([1, 2] : List ℕ).length true)).2 = none
      ∧ (fill_buffer ev7 s7).pending_error = s7.pending_error.or none
      ∧ (fill_buffer ev7 s7).pending_data
          = s7.pending_data
            ++ List.filter
                (fun row => s7.conditions.all
                  (fun c => decide (c = 0) || decide (2 ≤ row))) [1, 2])
    ∧ (fill_buffer ev7 s7).pending_data = [2] :=
  ⟨claim_c7_amended ev7 (fun c row => decide (c = 0) || decide (2 ≤ row)) s7
      { data := [1, 2], error := none } [] rfl (by decide),
   by decide⟩

/-- Claim C8: the pending error merges first-failure-wins — an existing
pending error is never overwritten by a later cycle's error, and when none
exists the cycle's error (here: the upstream result's error, since filtering
never fails) is installed — and it is cleared exactly when surfaced: a
`next_batch` result carrying an error leaves no pending error behind, while
a result without one leaves the pending error of the refilled state
untouched. -/
theorem claim_c8 (ev : Evaluator C R E) (s : SelState C R E) (n : ℕ) :
    (∀ e : E, s.pending_error = some e →
      (fill_buffer ev s).pending_error = some e)
    ∧ (s.pending_error = none →
        (fill_buffer ev s).pending_error = (upstreamNext s.upstream).1.error)
    ∧ (∀ (res : BatchExecuteResult R E) (s' : SelState C R E),
        next_batch ev s n = some (res, s') →
        (∀ e : E, res.error = some e → s'.pending_error = none)
        ∧ (res.error = none →
            s'.pending_error = (fillLoop ev n s).pending_error)) := by
  refine ⟨fun e he => ?_, fun hn => ?_, fun res s' h => ?_⟩
  · rw [fill_pending_error, he]
    rfl
  · rw [fill_pending_error, hn]
    rfl
  · obtain ⟨-, -, herr, -, hpe, -⟩ := next_batch_inv ev n s res s' h
    constructor
    · intro e he
      by_cases hlt : res.data.length < n
      · rw [hpe, if_pos hlt]
      · rw [herr, if_neg hlt] at he
        exact absurd he (by simp)
    · intro hne
      by_cases hlt : res.data.length < n
      · rw [herr, if_pos hlt] at hne
        rw [hpe, if_pos hlt, hne]
      · rw [hpe, if_neg hlt]

/-- Witness for C8 at concrete inputs: an existing pending error `3` survives
a fill cycle whose chunk carries error `4`, and the surfaced error `9` of the
`exStateErr` run leaves a cleared pending error. -/
theorem claim_c8_witness :
    (fill_buffer exEv exPE).pending_error = some 3
    ∧ sAfterErr.pending_error = none :=
  ⟨(claim_c8 exEv exPE 0).1 3 rfl,
   (((claim_c8 exEv exStateErr 4).2.2 { data := [5], error := some 9 }
      sAfterErr (by decide)).1) 9 rfl⟩

/-- Claim C9: after a fill cycle the operator is drained exactly when a
pending error now exists or the fetched chunk had zero rows; and once
drained, no later `next_batch` call ever runs another fill cycle — the
upstream script is never pulled again and the operator stays drained. -/
theorem claim_c9 (ev : Evaluator C R E) (s : SelState C R E) :
    ((fill_buffer ev s).has_drained
      = ((fill_buffer ev s).pending_error.isSome
          || ((upstreamNext s.upstream).1.data.length == 0)))
    ∧ (s.has_drained = true → ∀ ns : List ℕ,
        (runCalls ev ns s).2.upstream = s.upstream
        ∧ (runCalls ev ns s).2.has_drained = true) := by
  exact ⟨rfl, fun hd ns => runCalls_drained ev ns s hd⟩

/-- Witness for C9 at a concrete input: a drained state with script remaining
is never pulled across two further calls. -/
theorem claim_c9_witness :
    (runCalls exEv [3, 1] exDrained).2.upstream = exDrained.upstream
    ∧ (runCalls exEv [3, 1] exDrained).2.has_drained = true :=
  (claim_c9 exEv exDrained).2 rfl [3, 1]

/-- Claim C10: in any state where no error has been returned yet,
`next_batch(0)` returns a zero-row, error-free batch and leaves the state
completely unchanged: no fill cycle runs (the upstream script is untouched)
and the pending buffer, pending error and the drained/thrown flags keep
their values, so a pending error is never surfaced by a zero-row request. -/
theorem claim_c10 (ev : Evaluator C R E) (s : SelState C R E)
    (h : s.has_thrown_error = false) :
    next_batch ev s 0 = some ({ data := [], error := none }, s) := by
  obtain ⟨cs, pd, pe, hte, hd, up⟩ := s
  have h' : hte = false := h
  subst h'
  rw [next_batch_eq ev 0 _ rfl, fillLoop_zero]
  simp

/-- Witness for C10 at a concrete input: a zero-row request on a state with a
pending error returns no rows and no error and changes nothing. -/
theorem claim_c10_witness :
    next_batch exEv exPE 0 = some ({ data := [], error := none }, exPE) :=
  claim_c10 exEv exPE rfl
